import Mathlib

/-!
# Verification of the quiz-app game session core (`server.js`)

This file gives a shallow embedding of the real-time game-session core of the
quiz application server and proves properties of it.

Embedding conventions:

* All numeric quantities are exact.  The JavaScript code only manipulates
  numbers that are integer multiples of `0.01` (answer latencies are produced
  by `Math.round(x * 100) / 100`, scores by `max(0, 10 - latency)` and sums
  thereof), so we represent latencies in **centiseconds** and scores in
  **centipoints** (hundredths of a point) as integers: `10` points is `1000`
  centipoints, a latency of `2.00 s` is `200` centiseconds.  Wall-clock
  timestamps (`Date.now()`) are integers in milliseconds.
* `Math.round(ms / 10)` (the conversion from a millisecond difference to a
  two-decimal second count, scaled by 100) is `(ms + 5).fdiv 10`, floor
  division, which agrees with JavaScript's round-half-up for all integers.
* JavaScript coercions are modelled explicitly: `!x` on a possibly-null
  answer string is `answerFalsy` (null or `""`), on a possibly-null number it
  is `timeFalsy` (null or `0`), and arithmetic on `null` coerces to `0`
  (`numOfTime`).
* The two `setInterval` countdown timers are modelled by `TimerSlot`: `live`
  counts the interval objects of that kind currently scheduled, and `refLive`
  records whether the global handle variable (`photoTimer`/`questionTimer`)
  currently references a live interval.  `setInterval` increments `live` and
  points the handle at the new interval; `clearInterval(handle)` cancels the
  referenced interval if the handle references a live one and is a no-op
  otherwise (covering both `null` and stale handles).
* `gameState.players` is a JavaScript `Map` keyed by the player name;
  we model it as a list of `Player` in insertion order, where `Map.set` on an
  existing key replaces the entry in place (`mapSet`).
* The single-threaded event loop is modelled by `stepE`: each socket-event
  handler and each timer tick runs atomically as one state transition.
  `endCount` is an instrumentation counter incremented each time the
  question-end sequence `endQuestion` runs; it affects nothing else.
* External services (the Databricks results sink, the identity oracle, the
  Genie chat proxy) are fire-and-forget or out of scope and have no effect on
  the in-memory game state, so they are not modelled.
-/

namespace Quiz

/-- The phase state machine of `gameState.currentPhase`. -/
inductive Phase
  | waiting
  | photos
  | question
  | leaderboard
deriving DecidableEq

/-- A roster entry: the object stored in `gameState.players`.
`score` is in centipoints, `answerTime` in centiseconds. -/
structure Player where
  name : String
  score : ℤ
  currentAnswer : Option String
  answerTime : Option ℤ
  isConnected : Bool
  socketId : Nat
deriving DecidableEq

/-- An entry of `gameState.leaderboard`. -/
structure LBEntry where
  name : String
  score : ℤ
  answerTime : Option ℤ
deriving DecidableEq

/-- State of one kind of countdown interval (photo or question): how many
interval objects are live, and whether the global handle variable references
a live one. -/
structure TimerSlot where
  live : Nat
  refLive : Bool
deriving DecidableEq

/-- Semantics of `handle = setInterval(...)`: a new interval is scheduled and the handle
references it.  A previously referenced interval becomes orphaned but stays
live. -/
def setIntervalSlot (t : TimerSlot) : TimerSlot := ⟨t.live + 1, true⟩

/-- Semantics of `clearInterval(handle)`: cancels the referenced interval when the handle
references a live one; a no-op on a `null` or stale handle. -/
def clearIntervalRef (t : TimerSlot) : TimerSlot :=
  if t.refLive then ⟨t.live - 1, false⟩ else t

/-- The process-wide mutable session state (`gameState`, `activeTokens`, the
two timer variables), plus the `endCount` instrumentation counter. -/
structure GameState where
  isStarted : Bool
  currentPhase : Phase
  currentQuestion : Nat
  totalQuestions : Nat
  photoTimeLeft : ℤ
  questionTimeLeft : ℤ
  players : List Player
  leaderboard : List LBEntry
  questionStartTime : Option ℤ
  questionEndTime : Option ℤ
  activeTokens : List String
  photoTimer : TimerSlot
  questionTimer : TimerSlot
  endCount : Nat
deriving DecidableEq

/-- The hard-coded admin identity checked by `start-game`, `new-game`,
`join-waiting` and `rejoin-admin-room`. -/
def adminEmail : String := "hugues.journeau@databricks.com"

/-- The fixed correct answer in `endQuestion`. -/
def correctAnswer : String := "echantons"

/-- Computes `Math.round(ms / 10)`: millisecond difference to centiseconds, matching
`Math.round(timeElapsed * 100) / 100` scaled by 100. -/
def jsRound10 (ms : ℤ) : ℤ := (ms + 5).fdiv 10

/-- JavaScript truthiness of a nullable answer string: `!a` holds for `null`
and for the empty string. -/
def answerFalsy : Option String → Bool
  | none => true
  | some a => a == ""

/-- JavaScript truthiness of a nullable number: `!t` holds for `null` and
for `0`. -/
def timeFalsy : Option ℤ → Bool
  | none => true
  | some t => t == 0

/-- JavaScript arithmetic coercion of a nullable number: `null` is `0`. -/
def numOfTime : Option ℤ → ℤ
  | none => 0
  | some t => t

/-- The `Map.set` operation keyed by player name: replaces the entry in place when the key
exists (preserving insertion order), otherwise appends. -/
def mapSet (ps : List Player) (key : String) (p : Player) : List Player :=
  if ps.any (fun q => decide (q.name = key)) then
    ps.map (fun q => if q.name = key then p else q)
  else ps ++ [p]

/-- Mutation of the first list entry matching a name (the `for ... of` lookup
loops in the handlers break at the first match). -/
def updateFirst (ps : List Player) (key : String) (f : Player → Player) : List Player :=
  match ps with
  | [] => []
  | p :: rest => if p.name = key then f p :: rest else p :: updateFirst rest key f

/-- Logical audiences of an emitted socket event. -/
inductive Audience
  | caller
  | adminRoom
  | waitingRoom
  | everyone
deriving DecidableEq

/-- An emitted socket event: audience and event name. -/
structure Emit where
  audience : Audience
  event : String
deriving DecidableEq

/-- The `join-waiting` handler.  A valid token is required; the admin identity
joins the admin room without becoming a player; any other identity is stored
in the roster keyed by name (`playerName || 'Anonymous'`) with a **fresh**
record: score `0`, no answer, connected, current socket. -/
def joinWaiting (s : GameState) (token playerName : String) (sockId : Nat) : GameState :=
  if token ∈ s.activeTokens then
    if playerName = adminEmail then s
    else
      let key := if playerName = "" then "Anonymous" else playerName
      { s with
          players := mapSet s.players key
            ({ name := key, score := 0, currentAnswer := none, answerTime := none,
               isConnected := true, socketId := sockId }) }
  else s

/-- The `start-game` handler: requires a valid token **and** the admin
identity; on success enters the photos phase and schedules the photo
countdown; on failure emits `start-game-error` to the caller only and leaves
the state unchanged. -/
def startGameHandler (s : GameState) (token playerEmail : String) : GameState × List Emit :=
  if token ∈ s.activeTokens ∧ playerEmail = adminEmail then
    ({ s with
        isStarted := true, currentPhase := Phase.photos, currentQuestion := 0,
        photoTimeLeft := 10, photoTimer := setIntervalSlot s.photoTimer },
     [⟨Audience.adminRoom, "game-started"⟩, ⟨Audience.waitingRoom, "game-started"⟩])
  else (s, [⟨Audience.caller, "start-game-error"⟩])

/-- The function `startQuestionPhase()`: enters the question phase, records the
authoritative start timestamp and schedules the question countdown. -/
def startQuestionPhase (s : GameState) (now : ℤ) : GameState :=
  { s with
      currentPhase := Phase.question, questionTimeLeft := 10,
      questionStartTime := some now,
      questionTimer := setIntervalSlot s.questionTimer }

/-- Per-player scoring step of `endQuestion`: a player whose recorded answer
is exactly the correct text gains `max(0, 10 - answerTime)` points
(`max 0 (1000 - answerTime)` in centipoints; `null` coerces to `0`). -/
def scoreUpdate (p : Player) : Player :=
  if p.currentAnswer = some correctAnswer then
    { p with score := p.score + max 0 (1000 - numOfTime p.answerTime) }
  else p

/-- The answer-field reset performed on every player inside `endQuestion`. -/
def clearAnswer (p : Player) : Player :=
  { p with currentAnswer := none, answerTime := none }

/-- The leaderboard entry pushed for a correct answer (after the score was
added). -/
def mkCorrectEntry (p : Player) : LBEntry := ⟨p.name, p.score, p.answerTime⟩

/-- The first sort in `endQuestion`: `correctPlayers.sort((a, b) => b.score - a.score)`,
a stable sort keeping `a` before `b` iff `b.score - a.score ≤ 0`. -/
def sortByScore (l : List LBEntry) : List LBEntry :=
  l.mergeSort (fun a b => decide (b.score ≤ a.score))

/-- The final leaderboard comparator: keep `a` before `b` iff the JavaScript
comparator returns a value `≤ 0`.  Scores compare descending; on a score tie
latencies compare ascending when both are present, and any comparison
involving a missing latency returns `0`. -/
def lbLe (a b : LBEntry) : Bool :=
  if a.score = b.score then
    match a.answerTime, b.answerTime with
    | some ta, some tb => decide (ta ≤ tb)
    | _, _ => true
  else decide (b.score ≤ a.score)

/-- The second sort in `endQuestion` (`gameState.leaderboard.sort(...)`),
modelled as a stable merge sort with the JavaScript comparator.  Caveat: on
entries with a missing latency the comparator is inconsistent (it returns `0`
against every entry of equal score), and there the engine's output order is
implementation-defined and differs from this merge sort; only permutation
facts and the orderings of lists whose latencies are all present are read off
this model. -/
def sortLB (l : List LBEntry) : List LBEntry := l.mergeSort lbLe

/-- The fill-in of a missing latency in the second `endQuestion` loop:
`let answerTime = player.answerTime; if (!answerTime && questionEndTime)
answerTime = round(totalTime); ... answerTime || null`. -/
def fillInTime (s : GameState) (t : Option ℤ) : Option ℤ :=
  let t1 := if timeFalsy t ∧ s.questionEndTime ≠ none then
      some (jsRound10 (s.questionEndTime.getD 0 - s.questionStartTime.getD 0))
    else t
  if timeFalsy t1 then none else t1

/-- One iteration of the second `endQuestion` loop: a **connected** player not
already named in the leaderboard is appended with score `0` and a filled-in
latency. -/
def addMissingStep (s : GameState) (acc : List LBEntry) (p : Player) : List LBEntry :=
  if p.isConnected = true ∧ ¬ (acc.any (fun e => decide (e.name = p.name)) = true) then
    acc ++ [⟨p.name, 0, fillInTime s p.answerTime⟩]
  else acc

/-- The function `endQuestion()`: scores every player whose answer equals the fixed correct
text, clears all answer fields, builds the leaderboard (correct players
sorted by score, then all still-connected players not yet present appended
with score `0`), sorts it with the final comparator, and enters the
leaderboard phase.  `endCount` counts the executions. -/
def endQuestion (s : GameState) : GameState :=
  let scored := s.players.map scoreUpdate
  let correctPlayers :=
    (scored.filter (fun p => decide (p.currentAnswer = some correctAnswer))).map mkCorrectEntry
  let cleared := scored.map clearAnswer
  let lb1 := sortByScore correctPlayers
  let lb2 := cleared.foldl (addMissingStep s) lb1
  { s with
      players := cleared,
      leaderboard := sortLB lb2,
      currentPhase := Phase.leaderboard,
      endCount := s.endCount + 1 }

/-- The `submit-answer` handler: finds the player by identity; if the stored
answer is still falsy (null or `""`) it records the answer and the
server-computed latency, then — if every roster entry now has a non-null
answer — records the end timestamp, cancels the question timer and runs
`endQuestion`.  Otherwise the submission is ignored. -/
def submitAnswer (s : GameState) (playerEmail answer : String) (now : ℤ) : GameState :=
  match s.players.find? (fun p => decide (p.name = playerEmail)) with
  | none => s
  | some p =>
    if answerFalsy p.currentAnswer then
      if (updateFirst s.players playerEmail (fun q => { q with
          currentAnswer := some answer,
          answerTime := some (jsRound10 (now - s.questionStartTime.getD 0)) })).all
        (fun q => q.currentAnswer.isSome) then
        endQuestion { s with
            players := updateFirst s.players playerEmail (fun q => { q with
              currentAnswer := some answer,
              answerTime := some (jsRound10 (now - s.questionStartTime.getD 0)) }),
            questionEndTime := some now,
            questionTimer := clearIntervalRef s.questionTimer }
      else { s with
          players := updateFirst s.players playerEmail (fun q => { q with
            currentAnswer := some answer,
            answerTime := some (jsRound10 (now - s.questionStartTime.getD 0)) }) }
    else s

/-- One tick of the photo countdown (fires only while a photo interval is
live): decrements the counter; at `0` it cancels the referenced photo
interval and starts the question phase. -/
def photoTickStep (s : GameState) (now : ℤ) : GameState :=
  if s.photoTimer.live = 0 then s
  else if s.photoTimeLeft - 1 ≤ 0 then
    startQuestionPhase { s with
        photoTimeLeft := s.photoTimeLeft - 1,
        photoTimer := clearIntervalRef s.photoTimer } now
  else { s with photoTimeLeft := s.photoTimeLeft - 1 }

/-- One tick of the question countdown (fires only while a question interval
is live): decrements the counter; at `0` it cancels the referenced question
interval, records the end timestamp and runs `endQuestion`. -/
def questionTickStep (s : GameState) (now : ℤ) : GameState :=
  if s.questionTimer.live = 0 then s
  else if s.questionTimeLeft - 1 ≤ 0 then
    endQuestion { s with
        questionTimeLeft := s.questionTimeLeft - 1,
        questionTimer := clearIntervalRef s.questionTimer,
        questionEndTime := some now }
  else { s with questionTimeLeft := s.questionTimeLeft - 1 }

/-- The `reset-game` handler: unconditionally (no token, no identity check)
resets the session state, clears the roster and the leaderboard, revokes all
tokens and broadcasts `game-reset` to everyone.  It does **not** touch the
countdown timers. -/
def resetGameHandler (s : GameState) : GameState × List Emit :=
  ({ s with
      isStarted := false, currentPhase := Phase.waiting, currentQuestion := 0,
      photoTimeLeft := 10, questionTimeLeft := 10, players := [], leaderboard := [],
      activeTokens := [] },
   [⟨Audience.everyone, "game-reset"⟩])

/-- The `new-game` handler: admin-only (valid token and admin identity); in
addition to the same reset it cancels the referenced photo and question
intervals; on failure it emits `new-game-error` to the caller only.  (The
external `clearGameScores` call touches no in-memory state.) -/
def newGameHandler (s : GameState) (token playerEmail : String) : GameState × List Emit :=
  if token ∈ s.activeTokens ∧ playerEmail = adminEmail then
    ({ s with
        isStarted := false, currentPhase := Phase.waiting, currentQuestion := 0,
        photoTimeLeft := 10, questionTimeLeft := 10, players := [], leaderboard := [],
        activeTokens := [],
        photoTimer := clearIntervalRef s.photoTimer,
        questionTimer := clearIntervalRef s.questionTimer },
     [⟨Audience.everyone, "game-reset"⟩])
  else (s, [⟨Audience.caller, "new-game-error"⟩])

/-- The `disconnect` handler: flips the connectivity flag of the first roster
entry whose connection reference matches; the entry (and its score) is kept. -/
def markFirstDisconnected (ps : List Player) (sid : Nat) : List Player :=
  match ps with
  | [] => []
  | p :: rest =>
    if p.socketId = sid then { p with isConnected := false } :: rest
    else p :: markFirstDisconnected rest sid

/-- The `disconnect` handler applied to the session state. -/
def disconnectStep (s : GameState) (sid : Nat) : GameState :=
  { s with players := markFirstDisconnected s.players sid }

/-- Computes `rank = leaderboard.findIndex(p => p.name === name) + 1`
(JavaScript `findIndex` returns `-1` when absent). -/
def playerRank (lb : List LBEntry) (nm : String) : ℤ :=
  (match lb.findIdx? (fun e => decide (e.name = nm)) with
   | some i => (i : ℤ)
   | none => -1) + 1

/-- The events of the single-threaded event loop that mutate the session
state: socket events and timer ticks.  `now` is the `Date.now()` value at the
moment the callback runs. -/
inductive Event
  | joinWaiting (token playerName : String) (sockId : Nat)
  | startGame (token playerEmail : String)
  | photoTick (now : ℤ)
  | questionTick (now : ℤ)
  | submitAnswer (playerEmail answer : String) (now : ℤ)
  | resetGame
  | newGame (token playerEmail : String)
  | disconnect (sockId : Nat)

/-- One atomic event-loop callback. -/
def stepE : Event → GameState → GameState
  | Event.joinWaiting tok nm sid, s => joinWaiting s tok nm sid
  | Event.startGame tok em, s => (startGameHandler s tok em).1
  | Event.photoTick now, s => photoTickStep s now
  | Event.questionTick now, s => questionTickStep s now
  | Event.submitAnswer em ans now, s => submitAnswer s em ans now
  | Event.resetGame, s => (resetGameHandler s).1
  | Event.newGame tok em, s => (newGameHandler s tok em).1
  | Event.disconnect sid, s => disconnectStep s sid

/-- Running a sequence of event-loop callbacks. -/
def runTrace (tr : List Event) (s : GameState) : GameState :=
  tr.foldl (fun st e => stepE e st) s


/-! ## Basic facts about the embedded operations -/

theorem clearIntervalRef_refLive (t : TimerSlot) : (clearIntervalRef t).refLive = false := by
  unfold clearIntervalRef
  split <;> simp_all

theorem endQuestion_endCount (s : GameState) : (endQuestion s).endCount = s.endCount + 1 := rfl

theorem endQuestion_currentPhase (s : GameState) :
    (endQuestion s).currentPhase = Phase.leaderboard := rfl

theorem endQuestion_questionTimer (s : GameState) :
    (endQuestion s).questionTimer = s.questionTimer := rfl

theorem endQuestion_players (s : GameState) :
    (endQuestion s).players = (s.players.map scoreUpdate).map clearAnswer := rfl

theorem runTrace_nil (s : GameState) : runTrace [] s = s := rfl

theorem runTrace_cons (e : Event) (tr : List Event) (s : GameState) :
    runTrace (e :: tr) s = runTrace tr (stepE e s) := rfl

/-- A convenient initial state: the literal initial values of `gameState`,
`activeTokens` and the timer variables at server start. -/
def state0 : GameState where
  isStarted := false
  currentPhase := Phase.waiting
  currentQuestion := 0
  totalQuestions := 1
  photoTimeLeft := 10
  questionTimeLeft := 10
  players := []
  leaderboard := []
  questionStartTime := none
  questionEndTime := none
  activeTokens := []
  photoTimer := ⟨0, false⟩
  questionTimer := ⟨0, false⟩
  endCount := 0

/-! ## C9: start-game authorization -/

/-- C9: the start-game operation transitions `WAITING` to `PHOTOS` only
when the caller presents a currently valid token and the configured admin
identity.  If either condition fails, the handler emits `start-game-error`
to the calling connection only, broadcasts nothing, and leaves the game
state unchanged. -/
theorem start_game_requires_admin (s : GameState) (token playerEmail : String) :
    (¬ (token ∈ s.activeTokens ∧ playerEmail = adminEmail) →
      startGameHandler s token playerEmail =
        (s, [⟨Audience.caller, "start-game-error"⟩])) ∧
    ((token ∈ s.activeTokens ∧ playerEmail = adminEmail) →
      (startGameHandler s token playerEmail).1.currentPhase = Phase.photos ∧
      (startGameHandler s token playerEmail).1.isStarted = true ∧
      (startGameHandler s token playerEmail).2 =
        [⟨Audience.adminRoom, "game-started"⟩, ⟨Audience.waitingRoom, "game-started"⟩]) := by
  constructor
  · intro h
    simp only [startGameHandler, if_neg h]
  · intro h
    simp [startGameHandler, if_pos h]

/-- Witness for C9: concrete runs of both branches of
`start_game_requires_admin`. -/
theorem start_game_requires_admin_witness :
    (startGameHandler { state0 with activeTokens := ["123456"] } "000000" "eve@example.com" =
      ({ state0 with activeTokens := ["123456"] },
        [⟨Audience.caller, "start-game-error"⟩])) ∧
    (startGameHandler { state0 with activeTokens := ["123456"] } "123456" adminEmail).1.currentPhase =
      Phase.photos := by
  refine ⟨?_, ?_⟩
  · exact (start_game_requires_admin { state0 with activeTokens := ["123456"] }
      "000000" "eve@example.com").1 (by decide)
  · exact ((start_game_requires_admin { state0 with activeTokens := ["123456"] }
      "123456" adminEmail).2 (by decide)).1

/-! ## C10: reset-game is unconditional -/

/-- C10: the reset-game operation performs the full reset for every
caller unconditionally: the handler takes no token and no identity, and for
every state it clears the roster, the leaderboard, the phase state and every
active token, broadcasting `game-reset` to everyone.  In contrast, new-game
(like start-game, cf. C9) is guarded: without a valid token and the admin
identity it changes nothing and emits an error to the caller only. -/
theorem reset_game_unconditional (s : GameState) :
    ((resetGameHandler s).1.players = [] ∧
     (resetGameHandler s).1.leaderboard = [] ∧
     (resetGameHandler s).1.currentPhase = Phase.waiting ∧
     (resetGameHandler s).1.isStarted = false ∧
     (resetGameHandler s).1.currentQuestion = 0 ∧
     (resetGameHandler s).1.photoTimeLeft = 10 ∧
     (resetGameHandler s).1.questionTimeLeft = 10 ∧
     (resetGameHandler s).1.activeTokens = [] ∧
     (resetGameHandler s).2 = [⟨Audience.everyone, "game-reset"⟩]) ∧
    (∀ token playerEmail : String,
      ¬ (token ∈ s.activeTokens ∧ playerEmail = adminEmail) →
      (newGameHandler s token playerEmail = (s, [⟨Audience.caller, "new-game-error"⟩])) ∧
      (startGameHandler s token playerEmail).1 = s) := by
  constructor
  · exact ⟨rfl, rfl, rfl, rfl, rfl, rfl, rfl, rfl, rfl⟩
  · intro token playerEmail h
    constructor
    · simp only [newGameHandler, if_neg h]
    · simp only [startGameHandler, if_neg h]

/-- Witness for C10: a concrete state with players, tokens and a running
question phase is fully cleared by `reset-game` issued with no credentials,
while an unauthorized `new-game` changes nothing. -/
theorem reset_game_unconditional_witness :
    ((resetGameHandler { state0 with
        currentPhase := Phase.question,
        players := [⟨"alice", 500, none, none, true, 4⟩],
        activeTokens := ["111111", "222222"] }).1.players = [] ∧
     (resetGameHandler { state0 with
        currentPhase := Phase.question,
        players := [⟨"alice", 500, none, none, true, 4⟩],
        activeTokens := ["111111", "222222"] }).1.activeTokens = []) ∧
    (newGameHandler { state0 with
        currentPhase := Phase.question,
        players := [⟨"alice", 500, none, none, true, 4⟩],
        activeTokens := ["111111", "222222"] } "999999" "eve@example.com").1.players =
      [⟨"alice", 500, none, none, true, 4⟩] := by
  refine ⟨⟨?_, ?_⟩, ?_⟩
  · exact (reset_game_unconditional _).1.1
  · exact (reset_game_unconditional _).1.2.2.2.2.2.2.2.1
  · have h := ((reset_game_unconditional { state0 with
      currentPhase := Phase.question,
      players := [⟨"alice", 500, none, none, true, 4⟩],
      activeTokens := ["111111", "222222"] }).2 "999999" "eve@example.com" (by decide)).1
    rw [h]

/-! ## C2: rejoin and the participant record -/

/-- A state with one disconnected player carrying a nonzero score. -/
def c2state : GameState :=
  { state0 with
      players := [⟨"alice", 500, none, none, false, 3⟩],
      activeTokens := ["111111"] }

/-- C2 counterexample: the claim says a rejoin with the same identity
keeps the previously accumulated cumulative score unchanged, updating only
the connection reference and connectivity flag.  In the code, `join-waiting`
unconditionally stores a fresh record with `score: 0`: alice rejoins with a
score of `5` points (500 centipoints) and comes back with score `0`. -/
theorem rejoin_resets_score_counterexample :
    c2state.players.map Player.score = [500] ∧
    (joinWaiting c2state "111111" "alice" 7).players.map Player.score = [0] ∧
    (joinWaiting c2state "111111" "alice" 7).players.map Player.name = ["alice"] ∧
    (joinWaiting c2state "111111" "alice" 7).players.map Player.isConnected = [true] := by
  decide

/-- C2 amended: a rejoin with the same identity (valid token, non-admin,
non-empty name already present in the roster) reuses the same identity key —
the roster's key sequence is unchanged, no duplicate entry is created — but
replaces the participant record with a fresh one: cumulative score reset to
`0`, answer fields cleared, connectivity flag `true`, connection reference
updated to the joining socket. -/
theorem rejoin_replaces_record (s : GameState) (token nm : String) (sid : Nat)
    (htok : token ∈ s.activeTokens) (hadmin : nm ≠ adminEmail) (hne : nm ≠ "")
    (hany : s.players.any (fun q => decide (q.name = nm)) = true) :
    ((joinWaiting s token nm sid).players.map Player.name = s.players.map Player.name) ∧
    (∀ q ∈ (joinWaiting s token nm sid).players, q.name = nm →
      q = ⟨nm, 0, none, none, true, sid⟩) := by
  have hkey : (if nm = "" then "Anonymous" else nm) = nm := if_neg hne
  simp only [joinWaiting, if_pos htok, if_neg hadmin, hkey, mapSet, if_pos hany]
  constructor
  · rw [List.map_map]
    apply List.map_congr_left
    intro q hq
    by_cases h : q.name = nm <;> simp [h]
  · intro q hq hqname
    rcases List.mem_map.1 hq with ⟨q0, hq0, rfl⟩
    by_cases h : q0.name = nm
    · simp [h]
    · simp only [if_neg h] at hqname
      exact absurd hqname h

/-- Witness for C2 (amended): alice's rejoin keeps the roster keyed by
"alice" and the stored record is the fresh one. -/
theorem rejoin_replaces_record_witness :
    (joinWaiting c2state "111111" "alice" 7).players.map Player.name = ["alice"] := by
  have h := (rejoin_replaces_record c2state "111111" "alice" 7
    (by decide) (by decide) (by decide) (by decide)).1
  exact h.trans (by decide)

/-! ## C3: timers and resets -/

/-- Cancelling the referenced interval of a slot with at most one live
interval, where a live interval implies the handle references it, leaves no
live interval. -/
theorem clearIntervalRef_live_zero (t : TimerSlot) (h1 : t.live ≤ 1)
    (h2 : t.live = 1 → t.refLive = true) : (clearIntervalRef t).live = 0 := by
  rcases t with ⟨n, r⟩
  cases r
  · simp only [clearIntervalRef] at *
    simp_all
    omega
  · simp only [clearIntervalRef] at *
    simp_all

/-- A state mid photo countdown: one live photo interval, referenced by the
handle. -/
def c3state : GameState :=
  { state0 with
      isStarted := true,
      currentPhase := Phase.photos,
      photoTimeLeft := 7,
      photoTimer := ⟨1, true⟩,
      activeTokens := ["123456"] }

/-- C3 counterexample: the claim says a reset (`reset-game` or
`new-game`) issued mid-countdown leaves zero countdown timers active.  The
`reset-game` handler does not touch the timers at all: issued mid photo
countdown, the photo interval is still live afterwards. -/
theorem reset_leaves_timer_counterexample :
    c3state.photoTimer.live = 1 ∧
    (resetGameHandler c3state).1.currentPhase = Phase.waiting ∧
    (resetGameHandler c3state).1.photoTimer.live = 1 := by
  decide

/-- C3 amended: the new-game operation cancels the referenced photo and question
intervals, so issued mid-countdown from a state with no orphaned intervals it
leaves zero active countdown timers; `reset-game` cancels nothing — the
timers are exactly those active before it; and a phase start activates only
its own timer: `start-game` from a state with no live intervals leaves
exactly one (the photo countdown), and the photo-countdown expiry tick
cancels the photo interval and leaves exactly the one question interval. -/
theorem timer_supersession_amended :
    (∀ s : GameState,
      (resetGameHandler s).1.photoTimer = s.photoTimer ∧
      (resetGameHandler s).1.questionTimer = s.questionTimer) ∧
    (∀ (s : GameState) (token playerEmail : String),
      token ∈ s.activeTokens → playerEmail = adminEmail →
      s.photoTimer.live ≤ 1 → (s.photoTimer.live = 1 → s.photoTimer.refLive = true) →
      s.questionTimer.live ≤ 1 → (s.questionTimer.live = 1 → s.questionTimer.refLive = true) →
      (newGameHandler s token playerEmail).1.photoTimer.live = 0 ∧
      (newGameHandler s token playerEmail).1.questionTimer.live = 0) ∧
    (∀ (s : GameState) (token playerEmail : String),
      token ∈ s.activeTokens → playerEmail = adminEmail →
      s.photoTimer.live = 0 → s.questionTimer.live = 0 →
      (startGameHandler s token playerEmail).1.photoTimer.live = 1 ∧
      (startGameHandler s token playerEmail).1.questionTimer.live = 0) ∧
    (∀ (s : GameState) (now : ℤ),
      s.photoTimer = ⟨1, true⟩ → s.questionTimer.live = 0 → s.photoTimeLeft = 1 →
      (photoTickStep s now).photoTimer.live = 0 ∧
      (photoTickStep s now).questionTimer.live = 1) := by
  refine ⟨?_, ?_, ?_, ?_⟩
  · intro s
    exact ⟨rfl, rfl⟩
  · intro s token playerEmail htok hem hp1 hp2 hq1 hq2
    have hcond : token ∈ s.activeTokens ∧ playerEmail = adminEmail := ⟨htok, hem⟩
    simp only [newGameHandler, if_pos hcond]
    exact ⟨clearIntervalRef_live_zero _ hp1 hp2, clearIntervalRef_live_zero _ hq1 hq2⟩
  · intro s token playerEmail htok hem hp hq
    have hcond : token ∈ s.activeTokens ∧ playerEmail = adminEmail := ⟨htok, hem⟩
    simp only [startGameHandler, if_pos hcond, setIntervalSlot]
    exact ⟨by simp [hp], hq⟩
  · intro s now hp hq htl
    have hlive : ¬ s.photoTimer.live = 0 := by rw [hp]; simp
    have hcond : s.photoTimeLeft - 1 ≤ 0 := by rw [htl]; norm_num
    simp only [photoTickStep, if_neg hlive, if_pos hcond]
    constructor
    · simp [startQuestionPhase, hp, clearIntervalRef]
    · simp [startQuestionPhase, setIntervalSlot, hq]

/-- Witness for C3 (amended): a concrete `new-game` mid-countdown cancels the
photo interval, and the photo-countdown expiry leaves one question interval. -/
theorem timer_supersession_amended_witness :
    ((newGameHandler c3state "123456" adminEmail).1.photoTimer.live = 0 ∧
     (newGameHandler c3state "123456" adminEmail).1.questionTimer.live = 0) ∧
    ((photoTickStep { c3state with photoTimeLeft := 1 } 5000).photoTimer.live = 0 ∧
     (photoTickStep { c3state with photoTimeLeft := 1 } 5000).questionTimer.live = 1) := by
  constructor
  · exact timer_supersession_amended.2.1 c3state "123456" adminEmail
      (by decide) rfl (by decide) (by decide) (by decide) (by decide)
  · exact timer_supersession_amended.2.2.2 { c3state with photoTimeLeft := 1 } 5000
      rfl rfl rfl

/-! ## C4: first answer wins -/

/-- A state mid question with two players, neither having answered. -/
def c4state : GameState :=
  { state0 with
      isStarted := true,
      currentPhase := Phase.question,
      questionStartTime := some 0,
      questionTimer := ⟨1, true⟩,
      players := [⟨"bob", 0, none, none, true, 1⟩, ⟨"carol", 0, none, none, true, 2⟩] }

/-- C4 counterexample: the claim says the second submission by the same
identity in the same question is always a no-op, whatever the content of
either answer.  The guard `!player.currentAnswer` treats an empty-string
answer as *no* answer: bob submits `""` at 1.00 s (recorded), then submits
`"echantons"` at 2.00 s and the second submission **overwrites** both the
answer and the latency. -/
theorem duplicate_submission_counterexample :
    (((submitAnswer c4state "bob" "" 1000).players.find?
        (fun p => decide (p.name = "bob"))).map
      (fun p => (p.currentAnswer, p.answerTime)) = some (some "", some 100)) ∧
    (((submitAnswer (submitAnswer c4state "bob" "" 1000) "bob" "echantons" 2000).players.find?
        (fun p => decide (p.name = "bob"))).map
      (fun p => (p.currentAnswer, p.answerTime)) = some (some "echantons", some 200)) := by
  decide

/-- C4 amended: a second submission by the same identity in the same
question is a no-op — the whole state is unchanged — provided the first
recorded answer is a non-empty string.  (An empty-string answer is falsy, so
the guard treats it as absent and a later submission may overwrite it,
cf. the counterexample.) -/
theorem first_answer_wins (s : GameState) (playerEmail answer : String) (now : ℤ)
    (p : Player) (hfind : s.players.find? (fun q => decide (q.name = playerEmail)) = some p)
    (hfull : answerFalsy p.currentAnswer = false) :
    submitAnswer s playerEmail answer now = s := by
  unfold submitAnswer
  rw [hfind]
  simp [hfull]

/-- Witness for C4 (amended): bob already answered `"yes"`; a later
submission changes nothing. -/
theorem first_answer_wins_witness :
    submitAnswer
      { c4state with players := [⟨"bob", 0, some "yes", some 100, true, 1⟩] }
      "bob" "echantons" 2000 =
    { c4state with players := [⟨"bob", 0, some "yes", some 100, true, 1⟩] } := by
  exact first_answer_wins _ "bob" "echantons" 2000 ⟨"bob", 0, some "yes", some 100, true, 1⟩
    (by decide) (by decide)

/-! ## C5: the scoring formula -/

/-- C5: in `endQuestion`, a participant whose recorded answer is exactly
(case-sensitively, untrimmed) the fixed correct text gains
`max(0, 10 - latencySeconds)` — `max 0 (1000 - answerTime)` in centipoints —
added to the cumulative score, with `null` latency coercing to `0`; every
other participant's score is unchanged (gains `0`).  In particular the gain
is `0` for latency `≥ 10 s` (`1000` cs) and exactly `10` points (`1000` cp)
for latency `0`. -/
theorem scoring_formula :
    (∀ s : GameState,
      (endQuestion s).players.map Player.score =
        s.players.map (fun p =>
          if p.currentAnswer = some correctAnswer then
            p.score + max 0 (1000 - numOfTime p.answerTime)
          else p.score)) ∧
    (∀ (p : Player) (lat : ℤ),
      p.currentAnswer = some correctAnswer → p.answerTime = some lat →
      ((1000 ≤ lat → (scoreUpdate p).score = p.score) ∧
       (lat = 0 → (scoreUpdate p).score = p.score + 1000))) ∧
    (∀ p : Player, p.currentAnswer ≠ some correctAnswer →
      (scoreUpdate p).score = p.score) := by
  refine ⟨?_, ?_, ?_⟩
  · intro s
    rw [endQuestion_players, List.map_map, List.map_map]
    apply List.map_congr_left
    intro p _
    by_cases h : p.currentAnswer = some correctAnswer <;>
      simp [scoreUpdate, clearAnswer, h, Function.comp]
  · intro p lat hans hlat
    constructor
    · intro hge
      have : max 0 (1000 - lat) = 0 := by omega
      simp [scoreUpdate, hans, hlat, numOfTime, this]
    · intro h0
      subst h0
      simp [scoreUpdate, hans, hlat, numOfTime]
  · intro p h
    simp [scoreUpdate, h]

/-- Witness for C5: a correct answer at exactly 10 s gains nothing; a correct
answer at latency 0 gains the full 10 points; a wrong answer gains nothing. -/
theorem scoring_formula_witness :
    (scoreUpdate ⟨"w", 0, some correctAnswer, some 1000, true, 1⟩).score = 0 ∧
    (scoreUpdate ⟨"v", 0, some correctAnswer, some 0, true, 1⟩).score = 1000 ∧
    (scoreUpdate ⟨"u", 300, some "Echantons", some 0, true, 1⟩).score = 300 := by
  refine ⟨?_, ?_, ?_⟩
  · exact (scoring_formula.2.1 ⟨"w", 0, some correctAnswer, some 1000, true, 1⟩ 1000
      rfl rfl).1 (by norm_num)
  · exact (scoring_formula.2.1 ⟨"v", 0, some correctAnswer, some 0, true, 1⟩ 0
      rfl rfl).2 rfl
  · exact scoring_formula.2.2 ⟨"u", 300, some "Echantons", some 0, true, 1⟩ (by decide)

unseal List.merge List.mergeSort

/-! ## C6: leaderboard ordering -/

/-- A total, transitive strengthening of the leaderboard comparator that
coincides with `lbLe` whenever both latencies are present: descending score,
then ascending latency. -/
def lbLeT (a b : LBEntry) : Bool :=
  decide (b.score < a.score) ||
    (decide (a.score = b.score) && decide (a.answerTime.getD 0 ≤ b.answerTime.getD 0))

theorem lbLeT_trans (a b c : LBEntry) (hab : lbLeT a b) (hbc : lbLeT b c) : lbLeT a c := by
  simp only [lbLeT, Bool.or_eq_true, Bool.and_eq_true, decide_eq_true_eq] at *
  rcases hab with h1 | ⟨h1, h2⟩ <;> rcases hbc with h3 | ⟨h3, h4⟩
  · exact Or.inl (lt_trans h3 h1)
  · exact Or.inl (h3 ▸ h1)
  · exact Or.inl (h1 ▸ h3)
  · exact Or.inr ⟨h1.trans h3, le_trans h2 h4⟩

theorem lbLeT_total (a b : LBEntry) : lbLeT a b || lbLeT b a := by
  simp only [lbLeT, Bool.or_eq_true, Bool.and_eq_true, decide_eq_true_eq]
  rcases lt_trichotomy a.score b.score with h | h | h
  · tauto
  · rcases le_total (a.answerTime.getD 0) (b.answerTime.getD 0) with h2 | h2 <;> tauto
  · tauto

/-- On a list of entries whose latencies are all present the JavaScript
comparator is consistent, and the leaderboard sort coincides with the stable
sort by descending score then ascending latency. -/
theorem sortLB_eq_lbLeT (l : List LBEntry) (h : ∀ e ∈ l, e.answerTime ≠ none) :
    sortLB l = l.mergeSort lbLeT := by
  have h2 : (l.mergeSort lbLe).map id = (l.map id).mergeSort lbLeT := by
    apply List.map_mergeSort
    intro a ha b hb
    rcases ta : a.answerTime with _ | ta0
    · exact absurd ta (h a ha)
    rcases tb : b.answerTime with _ | tb0
    · exact absurd tb (h b hb)
    simp only [lbLe, lbLeT, ta, tb, Option.getD_some, id]
    by_cases hs : a.score = b.score
    · simp [hs]
    · rcases lt_trichotomy a.score b.score with h1 | h1 | h1
      · simp [hs, not_le.2 h1, not_lt.2 (le_of_lt h1), Ne.symm hs]
      · exact absurd h1 hs
      · simp [hs, le_of_lt h1, h1, Ne.symm hs]
  simpa [sortLB] using h2

/-- Position order in a list: `e1` (first occurrence) lies strictly before
`e2`.  Used to transcribe claim C6's order clauses. -/
@[reducible]
def precedesIn (l : List LBEntry) (e1 e2 : LBEntry) : Prop :=
  e1 ∈ l ∧ e2 ∈ l ∧ l.indexOf e1 < l.indexOf e2

/-- Transcription of claim C6's ordering clause, taken from the claim's words
rather than from the code: an earlier leaderboard entry has strictly greater
score, or an equal score with ascending latency whenever both latencies are
present. -/
def specTieOrder (e1 e2 : LBEntry) : Prop :=
  e2.score < e1.score ∨
    (e1.score = e2.score ∧
      (e1.answerTime.isSome = true → e2.answerTime.isSome = true →
        e1.answerTime.getD 0 ≤ e2.answerTime.getD 0))

/-- Transcription of claim C6's sortedness requirement on a candidate output
list, taken from the claim's words. -/
def specOrdered (out : List LBEntry) : Prop :=
  ∀ e1 ∈ out, ∀ e2 ∈ out, precedesIn out e1 e2 → specTieOrder e1 e2

/-- Transcription of claim C6's preservation clause, taken from the claim's
words: entries tied on score whose latencies are equal or unavailable keep
their prior relative order. -/
def specPreserved (input out : List LBEntry) : Prop :=
  ∀ e1 ∈ input, ∀ e2 ∈ input, precedesIn input e1 e2 → e1.score = e2.score →
    (e1.answerTime = none ∨ e2.answerTime = none ∨ e1.answerTime = e2.answerTime) →
    precedesIn out e1 e2

/-- C6 counterexample: at the concrete entry list
`[x(5, 3.0 s), a(5, null), b(5, 1.0 s)]` the claim's clauses are jointly
unsatisfiable, so the computed leaderboard — whatever order the engine's
`Array.prototype.sort` produces with this inconsistent comparator — violates
the claim.  The ascending-latency tie-break demands `b` before `x`, while the
preserved-order clause (equal scores, `a`'s latency unavailable) demands `x`
before `a` and `a` before `b`: a cycle no output list can realize.  This
refutation does not depend on the `sortLB` model of the sort. -/
theorem leaderboard_null_tie_counterexample :
    ¬ ∃ out : List LBEntry,
      specOrdered out ∧
      specPreserved
        [⟨"x", 500, some 300⟩, ⟨"a", 500, none⟩, ⟨"b", 500, some 100⟩] out := by
  rintro ⟨out, hord, hpres⟩
  have hxa : precedesIn out ⟨"x", 500, some 300⟩ ⟨"a", 500, none⟩ :=
    hpres ⟨"x", 500, some 300⟩ (by decide) ⟨"a", 500, none⟩ (by decide)
      (by decide) rfl (Or.inr (Or.inl rfl))
  have hab : precedesIn out ⟨"a", 500, none⟩ ⟨"b", 500, some 100⟩ :=
    hpres ⟨"a", 500, none⟩ (by decide) ⟨"b", 500, some 100⟩ (by decide)
      (by decide) rfl (Or.inl rfl)
  have hxb : precedesIn out ⟨"x", 500, some 300⟩ ⟨"b", 500, some 100⟩ :=
    ⟨hxa.1, hab.2.1, lt_trans hxa.2.2 hab.2.2⟩
  rcases hord ⟨"x", 500, some 300⟩ hxa.1 ⟨"b", 500, some 100⟩ hab.2.1 hxb with h | ⟨-, h2⟩
  · exact absurd h (by decide)
  · exact absurd (h2 rfl rfl) (by decide)

/-- C6 amended: the computed leaderboard is a permutation of its
entries; on entry lists whose latencies are all present (the case every
reachable `endQuestion` state produces) it is sorted by descending cumulative
score with ties broken by ascending latency, and entries tied on both score
and latency keep their prior relative order.  The reference example
`[(A,5,2.0), (B,5,1.0), (C,3,0.5)]` comes out `[B, A, C]` and ranks are the
1-based positions `B ↦ 1`, `A ↦ 2`, `C ↦ 3`.  (When a latency is unavailable
the comparator is inconsistent and the claim's clauses become jointly
unsatisfiable, cf. the counterexample, so the preservation clause is
restricted to all-latencies-present lists.) -/
theorem leaderboard_order_amended :
    (sortLB [⟨"A", 500, some 200⟩, ⟨"B", 500, some 100⟩, ⟨"C", 300, some 50⟩] =
      [⟨"B", 500, some 100⟩, ⟨"A", 500, some 200⟩, ⟨"C", 300, some 50⟩]) ∧
    (∀ l : List LBEntry, (sortLB l).Perm l) ∧
    (∀ l : List LBEntry, (∀ e ∈ l, e.answerTime ≠ none) →
      (sortLB l).Pairwise (fun a b =>
        b.score < a.score ∨
          (a.score = b.score ∧ a.answerTime.getD 0 ≤ b.answerTime.getD 0))) ∧
    (∀ (l : List LBEntry) (a b : LBEntry), (∀ e ∈ l, e.answerTime ≠ none) →
      [a, b].Sublist l → a.score = b.score → a.answerTime = b.answerTime →
      [a, b].Sublist (sortLB l)) ∧
    (playerRank (sortLB [⟨"A", 500, some 200⟩, ⟨"B", 500, some 100⟩, ⟨"C", 300, some 50⟩]) "B" = 1 ∧
     playerRank (sortLB [⟨"A", 500, some 200⟩, ⟨"B", 500, some 100⟩, ⟨"C", 300, some 50⟩]) "A" = 2 ∧
     playerRank (sortLB [⟨"A", 500, some 200⟩, ⟨"B", 500, some 100⟩, ⟨"C", 300, some 50⟩]) "C" = 3) := by
  refine ⟨by decide, ?_, ?_, ?_, by decide⟩
  · intro l
    exact List.mergeSort_perm l lbLe
  · intro l h
    rw [sortLB_eq_lbLeT l h]
    have hs := List.sorted_mergeSort lbLeT_trans lbLeT_total l
    refine hs.imp ?_
    intro a b hab
    simpa only [lbLeT, Bool.or_eq_true, Bool.and_eq_true, decide_eq_true_eq] using hab
  · intro l a b h hsub hscore htime
    rw [sortLB_eq_lbLeT l h]
    refine List.pair_sublist_mergeSort lbLeT_trans lbLeT_total ?_ hsub
    simp [lbLeT, hscore, htime]

/-- Witness for C6 (amended): the stability clause applied to a concrete
tied pair with equal present latencies. -/
theorem leaderboard_order_amended_witness :
    [(⟨"p", 500, some 100⟩ : LBEntry), ⟨"q", 500, some 100⟩].Sublist
      (sortLB [⟨"p", 500, some 100⟩, ⟨"q", 500, some 100⟩, ⟨"r", 700, some 300⟩]) := by
  exact leaderboard_order_amended.2.2.2.1
    [⟨"p", 500, some 100⟩, ⟨"q", 500, some 100⟩, ⟨"r", 700, some 300⟩]
    ⟨"p", 500, some 100⟩ ⟨"q", 500, some 100⟩
    (by decide) (by decide) (by decide) (by decide)

/-! ## Facts about the `endQuestion` pipeline -/

theorem scoreUpdate_name (p : Player) : (scoreUpdate p).name = p.name := by
  unfold scoreUpdate
  split <;> rfl

theorem scoreUpdate_currentAnswer (p : Player) :
    (scoreUpdate p).currentAnswer = p.currentAnswer := by
  unfold scoreUpdate
  split <;> rfl

theorem scoreUpdate_answerTime (p : Player) : (scoreUpdate p).answerTime = p.answerTime := by
  unfold scoreUpdate
  split <;> rfl

theorem scoreUpdate_isConnected (p : Player) : (scoreUpdate p).isConnected = p.isConnected := by
  unfold scoreUpdate
  split <;> rfl

/-- The leaderboard built by `endQuestion`, written out. -/
theorem endQuestion_leaderboard (s : GameState) :
    (endQuestion s).leaderboard =
      sortLB (((s.players.map scoreUpdate).map clearAnswer).foldl (addMissingStep s)
        (sortByScore (((s.players.map scoreUpdate).filter
          (fun q => decide (q.currentAnswer = some correctAnswer))).map mkCorrectEntry))) := rfl

/-- Elements produced by the second `endQuestion` loop: each is either already
in the accumulator or is the score-0 entry of some connected player of the
list. -/
theorem mem_foldl_addMissingStep (s : GameState) (l : List Player) :
    ∀ (acc : List LBEntry) (e : LBEntry),
      e ∈ l.foldl (addMissingStep s) acc →
      e ∈ acc ∨ ∃ p ∈ l, p.isConnected = true ∧ e = ⟨p.name, 0, fillInTime s p.answerTime⟩ := by
  induction l with
  | nil => exact fun acc e he => Or.inl he
  | cons q rest ih =>
    intro acc e he
    rcases ih (addMissingStep s acc q) e he with h | ⟨p, hp, hc, he2⟩
    · by_cases hcond : q.isConnected = true ∧
        ¬ (acc.any (fun e2 => decide (e2.name = q.name)) = true)
      · rw [addMissingStep, if_pos hcond] at h
        rcases List.mem_append.1 h with h1 | h1
        · exact Or.inl h1
        · exact Or.inr ⟨q, List.mem_cons_self q rest, hcond.1, by simpa using h1⟩
      · rw [addMissingStep, if_neg hcond] at h
        exact Or.inl h
    · exact Or.inr ⟨p, List.mem_cons_of_mem q hp, hc, he2⟩

/-- The second `endQuestion` loop only appends: accumulator elements stay. -/
theorem subset_foldl_addMissingStep (s : GameState) (l : List Player) :
    ∀ (acc : List LBEntry) (e : LBEntry), e ∈ acc → e ∈ l.foldl (addMissingStep s) acc := by
  induction l with
  | nil => exact fun acc e he => he
  | cons q rest ih =>
    intro acc e he
    apply ih
    rw [addMissingStep]
    split
    · exact List.mem_append_left _ he
    · exact he

/-- If no player of the list carries the name, the second `endQuestion` loop
adds no entry with that name. -/
theorem foldl_addMissingStep_filter_none (s : GameState) (nm : String) (l : List Player) :
    ∀ acc : List LBEntry, (∀ q ∈ l, q.name ≠ nm) →
      (l.foldl (addMissingStep s) acc).filter (fun e => decide (e.name = nm)) =
        acc.filter (fun e => decide (e.name = nm)) := by
  induction l with
  | nil => exact fun acc _ => rfl
  | cons q rest ih =>
    intro acc hq
    rw [List.foldl_cons,
      ih (addMissingStep s acc q) (fun r hr => hq r (List.mem_cons_of_mem q hr))]
    rw [addMissingStep]
    split
    · rw [List.filter_append]
      have hnil : (([⟨q.name, 0, fillInTime s q.answerTime⟩] : List LBEntry).filter
          (fun e => decide (e.name = nm))) = [] := by
        simp [hq q (List.mem_cons_self q rest)]
      rw [hnil, List.append_nil]
    · rfl

/-- If the list of players has pairwise-distinct names, contains the
connected player `pc` named `nm`, and the accumulator has no entry named
`nm`, then the second `endQuestion` loop produces exactly one entry named
`nm`: score `0` with `pc`'s filled-in latency. -/
theorem foldl_addMissingStep_filter_single (s : GameState) (nm : String) (pc : Player)
    (hname : pc.name = nm) (hconn : pc.isConnected = true) (l : List Player) :
    ∀ acc : List LBEntry, (l.map Player.name).Nodup → pc ∈ l →
      acc.filter (fun e => decide (e.name = nm)) = [] →
      (l.foldl (addMissingStep s) acc).filter (fun e => decide (e.name = nm)) =
        [⟨nm, 0, fillInTime s pc.answerTime⟩] := by
  induction l with
  | nil => exact fun acc _ hin _ => absurd hin (List.not_mem_nil pc)
  | cons q rest ih =>
    intro acc hnd hin hacc
    have hnd2 : q.name ∉ rest.map Player.name ∧ (rest.map Player.name).Nodup := by
      rw [List.map_cons] at hnd
      exact List.nodup_cons.1 hnd
    have hhead : q.name ∉ rest.map Player.name := hnd2.1
    rcases List.mem_cons.1 hin with heq | hin2
    · subst heq
      rw [List.foldl_cons]
      have hstep : addMissingStep s acc pc =
          acc ++ [⟨pc.name, 0, fillInTime s pc.answerTime⟩] := by
        rw [addMissingStep, if_pos]
        refine ⟨hconn, fun hany => ?_⟩
        rcases List.any_eq_true.1 hany with ⟨e, he, hee⟩
        have hmem : e ∈ acc.filter (fun e2 => decide (e2.name = nm)) := by
          refine List.mem_filter.2 ⟨he, ?_⟩
          simp only [decide_eq_true_eq] at hee ⊢
          rw [hee, hname]
        rw [hacc] at hmem
        exact absurd hmem (List.not_mem_nil e)
      rw [hstep]
      have hrest : ∀ r ∈ rest, r.name ≠ nm := by
        intro r hr hrnm
        exact hhead (by
          rw [hname, ← hrnm]
          exact List.mem_map_of_mem Player.name hr)
      rw [foldl_addMissingStep_filter_none s nm rest _ hrest, List.filter_append, hacc]
      simp [hname]
    · rw [List.foldl_cons]
      have hqname : q.name ≠ nm := by
        intro h
        exact hhead (by
          rw [h, ← hname]
          exact List.mem_map_of_mem Player.name hin2)
      refine ih (addMissingStep s acc q) hnd2.2 hin2 ?_
      rw [addMissingStep]
      split
      · rw [List.filter_append, hacc]
        simp [hqname]
      · exact hacc

/-! ## C7: disconnected participants and the leaderboard -/

/-- A state whose single player answered correctly but is disconnected at
scoring time. -/
def c7state : GameState :=
  { state0 with
      isStarted := true,
      currentPhase := Phase.question,
      players := [⟨"dave", 0, some "echantons", some 200, false, 3⟩],
      questionStartTime := some 0,
      questionEndTime := some 10000 }

/-- C7 counterexample: the claim says every participant whose
connectivity flag is false at scoring time — whether or not they submitted a
correct answer — is absent from the broadcast leaderboard.  The first
`endQuestion` loop collects **all** correct answers without checking
connectivity: disconnected dave answered correctly and appears on the
leaderboard with his score. -/
theorem disconnected_in_leaderboard_counterexample :
    c7state.players.map Player.isConnected = [false] ∧
    (endQuestion c7state).leaderboard = [⟨"dave", 800, some 200⟩] := by
  decide

/-- C7 amended: a disconnected participant whose recorded answer is
**not** the correct text is excluded from the broadcast leaderboard, while a
participant who answered correctly appears on it (with the updated cumulative
score and recorded latency) regardless of connectivity; and every
participant's record — hence cumulative score — is retained in the roster,
with answer fields cleared. -/
theorem disconnected_excluded_amended :
    (∀ (s : GameState) (p : Player), (s.players.map Player.name).Nodup → p ∈ s.players →
      p.isConnected = false → p.currentAnswer ≠ some correctAnswer →
      ∀ e ∈ (endQuestion s).leaderboard, e.name ≠ p.name) ∧
    (∀ (s : GameState) (p : Player), p ∈ s.players → p.currentAnswer = some correctAnswer →
      (⟨p.name, p.score + max 0 (1000 - numOfTime p.answerTime), p.answerTime⟩ : LBEntry) ∈
        (endQuestion s).leaderboard) ∧
    (∀ (s : GameState) (p : Player), p ∈ s.players →
      (⟨p.name, (if p.currentAnswer = some correctAnswer then
          p.score + max 0 (1000 - numOfTime p.answerTime) else p.score),
        none, none, p.isConnected, p.socketId⟩ : Player) ∈ (endQuestion s).players) := by
  refine ⟨?_, ?_, ?_⟩
  · intro s p hnd hp hdis hwrong e he hname
    rw [endQuestion_leaderboard] at he
    rw [sortLB] at he
    have he2 := List.mem_mergeSort.1 he
    rcases mem_foldl_addMissingStep s _ _ _ he2 with h1 | ⟨p2, hp2, hc2, he3⟩
    · rw [sortByScore] at h1
      have h1b := List.mem_mergeSort.1 h1
      rcases List.mem_map.1 h1b with ⟨p3, hp3, he4⟩
      have hp3f := List.mem_filter.1 hp3
      rcases List.mem_map.1 hp3f.1 with ⟨p0, hp0, he5⟩
      have hnames : p0.name = p.name := by
        rw [← scoreUpdate_name p0, he5]
        rw [← he4] at hname
        exact hname
      have hp0p : p0 = p := List.inj_on_of_nodup_map hnd hp0 hp hnames
      have hcorr : p0.currentAnswer = some correctAnswer := by
        have := hp3f.2
        rw [← he5] at this
        simpa [scoreUpdate_currentAnswer] using this
      rw [hp0p] at hcorr
      exact hwrong hcorr
    · rcases List.mem_map.1 hp2 with ⟨p4, hp4, he6⟩
      rcases List.mem_map.1 hp4 with ⟨p0, hp0, he7⟩
      have hnames : p0.name = p.name := by
        rw [he3] at hname
        simp only at hname
        rw [← he6, ← he7] at hname
        simpa [clearAnswer, scoreUpdate_name] using hname
      have hp0p : p0 = p := List.inj_on_of_nodup_map hnd hp0 hp hnames
      have hconn : p0.isConnected = true := by
        rw [← he7] at he6
        rw [← he6] at hc2
        simpa [clearAnswer, scoreUpdate_isConnected] using hc2
      rw [hp0p] at hconn
      rw [hconn] at hdis
      cases hdis
  · intro s p hp hcorr
    have hentry : (⟨p.name, p.score + max 0 (1000 - numOfTime p.answerTime),
        p.answerTime⟩ : LBEntry) = mkCorrectEntry (scoreUpdate p) := by
      simp [mkCorrectEntry, scoreUpdate, hcorr]
    rw [hentry, endQuestion_leaderboard, sortLB]
    apply List.mem_mergeSort.2
    apply subset_foldl_addMissingStep
    rw [sortByScore]
    apply List.mem_mergeSort.2
    apply List.mem_map_of_mem mkCorrectEntry
    refine List.mem_filter.2 ⟨List.mem_map_of_mem scoreUpdate hp, ?_⟩
    simp [scoreUpdate_currentAnswer, hcorr]
  · intro s p hp
    have hq : (⟨p.name, (if p.currentAnswer = some correctAnswer then
        p.score + max 0 (1000 - numOfTime p.answerTime) else p.score),
        none, none, p.isConnected, p.socketId⟩ : Player) = clearAnswer (scoreUpdate p) := by
      by_cases h : p.currentAnswer = some correctAnswer <;>
        simp [clearAnswer, scoreUpdate, h]
    rw [hq, endQuestion_players]
    exact List.mem_map_of_mem clearAnswer (List.mem_map_of_mem scoreUpdate hp)

/-- Witness for C7 (amended): a disconnected wrong-answer player is excluded;
a disconnected correct-answer player is included; the roster keeps both. -/
theorem disconnected_excluded_amended_witness :
    (∀ e ∈ (endQuestion { state0 with
        players := [⟨"faye", 0, some "zzz", some 100, false, 3⟩],
        questionStartTime := some 0, questionEndTime := some 10000 }).leaderboard,
      e.name ≠ "faye") ∧
    ((⟨"dave", 800, some 200⟩ : LBEntry) ∈ (endQuestion c7state).leaderboard) := by
  constructor
  · intro e he
    exact disconnected_excluded_amended.1 _ ⟨"faye", 0, some "zzz", some 100, false, 3⟩
      (by decide) (by decide) rfl (by decide) e he
  · have h := disconnected_excluded_amended.2.1 c7state
      ⟨"dave", 0, some "echantons", some 200, false, 3⟩ (by decide) rfl
    simpa using h

/-! ## C8: latency of connected non-correct participants -/

/-- A state whose single player is connected and gave a wrong answer at
4.50 s, with the question ending 10 s after it started. -/
def c8state : GameState :=
  { state0 with
      isStarted := true,
      currentPhase := Phase.question,
      players := [⟨"erin", 0, some "zzz", some 450, true, 3⟩],
      questionStartTime := some 0,
      questionEndTime := some 10000 }

/-- C8 counterexample: the claim says a connected participant with a
wrong answer keeps their actual recorded latency (here 4.50 s = 450 cs) in
the leaderboard.  The first `endQuestion` loop clears every player's
`answerTime` **before** the second loop reads it, so the wrong-answer player
is given the full elapsed time (10 s = 1000 cs) instead. -/
theorem wrong_answer_latency_counterexample :
    c8state.players.map Player.answerTime = [some 450] ∧
    (endQuestion c8state).leaderboard = [⟨"erin", 0, some 1000⟩] := by
  decide

/-- C8 amended: every connected participant whose recorded answer is
not the correct text — whether they answered wrongly or not at all — gets
exactly one leaderboard entry, with score `0` and latency equal to the full
elapsed time between the authoritative question-start and question-end
timestamps (their recorded latency having been cleared by the scoring loop
before the fill-in loop reads it). -/
theorem timeout_latency_amended (s : GameState) (p : Player) (ts te : ℤ)
    (hnd : (s.players.map Player.name).Nodup) (hp : p ∈ s.players)
    (hconn : p.isConnected = true) (hwrong : p.currentAnswer ≠ some correctAnswer)
    (hts : s.questionStartTime = some ts) (hte : s.questionEndTime = some te)
    (hr : jsRound10 (te - ts) ≠ 0) :
    (endQuestion s).leaderboard.filter (fun e => decide (e.name = p.name)) =
      [⟨p.name, 0, some (jsRound10 (te - ts))⟩] := by
  have hfill : fillInTime s none = some (jsRound10 (te - ts)) := by
    unfold fillInTime
    rw [hts, hte]
    simp [timeFalsy, hr]
  set pc : Player := clearAnswer (scoreUpdate p) with hpc
  have hpcname : pc.name = p.name := by
    rw [hpc]
    simp [clearAnswer, scoreUpdate_name]
  have hpcconn : pc.isConnected = true := by
    rw [hpc]
    simpa [clearAnswer, scoreUpdate_isConnected] using hconn
  have hpctime : pc.answerTime = none := rfl
  have hndc : ((((s.players.map scoreUpdate).map clearAnswer)).map Player.name).Nodup := by
    rw [List.map_map, List.map_map]
    have heq : ((s.players.map scoreUpdate).map clearAnswer).map Player.name =
        s.players.map Player.name := by
      rw [List.map_map, List.map_map]
      apply List.map_congr_left
      intro q _
      simp [Function.comp, clearAnswer, scoreUpdate_name]
    rw [List.map_map, List.map_map] at heq
    rw [heq]
    exact hnd
  have hpcmem : pc ∈ (s.players.map scoreUpdate).map clearAnswer :=
    List.mem_map_of_mem clearAnswer (List.mem_map_of_mem scoreUpdate hp)
  have hlb1 : (sortByScore (((s.players.map scoreUpdate).filter
      (fun q => decide (q.currentAnswer = some correctAnswer))).map mkCorrectEntry)).filter
        (fun e => decide (e.name = p.name)) = [] := by
    have hperm : List.Perm (sortByScore (((s.players.map scoreUpdate).filter
        (fun q => decide (q.currentAnswer = some correctAnswer))).map mkCorrectEntry))
        (((s.players.map scoreUpdate).filter
          (fun q => decide (q.currentAnswer = some correctAnswer))).map mkCorrectEntry) := by
      rw [sortByScore]
      exact List.mergeSort_perm _ _
    rw [← List.perm_nil]
    refine (hperm.filter _).trans ?_
    rw [List.perm_nil, List.filter_eq_nil_iff]
    intro e he hee
    rcases List.mem_map.1 he with ⟨p3, hp3, he4⟩
    have hp3f := List.mem_filter.1 hp3
    rcases List.mem_map.1 hp3f.1 with ⟨p0, hp0, he5⟩
    simp only [decide_eq_true_eq] at hee
    have hen : e.name = p0.name := by
      rw [← he4, ← he5]
      simp [mkCorrectEntry, scoreUpdate_name]
    have hnames : p0.name = p.name := hen.symm.trans hee
    have hp0p : p0 = p := List.inj_on_of_nodup_map hnd hp0 hp hnames
    have hcorr : p0.currentAnswer = some correctAnswer := by
      have h6 := hp3f.2
      rw [← he5] at h6
      simpa [scoreUpdate_currentAnswer] using h6
    rw [hp0p] at hcorr
    exact hwrong hcorr
  have hsingle := foldl_addMissingStep_filter_single s p.name pc hpcname hpcconn
    ((s.players.map scoreUpdate).map clearAnswer) _ hndc hpcmem hlb1
  rw [hpctime, hfill] at hsingle
  rw [endQuestion_leaderboard, sortLB]
  have hperm2 := (List.mergeSort_perm (((s.players.map scoreUpdate).map clearAnswer).foldl
    (addMissingStep s) (sortByScore (((s.players.map scoreUpdate).filter
      (fun q => decide (q.currentAnswer = some correctAnswer))).map mkCorrectEntry))) lbLe).filter
    (fun e => decide (e.name = p.name))
  rw [hsingle] at hperm2
  exact List.perm_singleton.1 hperm2

/-- Witness for C8 (amended): erin (wrong answer at 4.50 s, question elapsed
10 s) gets the single entry with latency 10 s. -/
theorem timeout_latency_amended_witness :
    (endQuestion c8state).leaderboard.filter (fun e => decide (e.name = "erin")) =
      [⟨"erin", 0, some 1000⟩] := by
  have h := timeout_latency_amended c8state ⟨"erin", 0, some "zzz", some 450, true, 3⟩
    0 10000 (by decide) (by decide) rfl (by decide) rfl rfl (by decide)
  simpa using h

/-! ## C1: the question-end sequence runs exactly once per question run -/

theorem joinWaiting_endCount (s : GameState) (tok nm : String) (sid : Nat) :
    (joinWaiting s tok nm sid).endCount = s.endCount := by
  unfold joinWaiting
  split
  · split <;> rfl
  · rfl

theorem joinWaiting_currentPhase (s : GameState) (tok nm : String) (sid : Nat) :
    (joinWaiting s tok nm sid).currentPhase = s.currentPhase := by
  unfold joinWaiting
  split
  · split <;> rfl
  · rfl

/-- Case analysis of one event-loop step taken from the question phase:
either the step leaves `endCount` unchanged and does not enter the
leaderboard phase, or it runs `endQuestion` exactly once — incrementing
`endCount` by one, entering the leaderboard phase, and leaving the question
timer handle cleared. -/
theorem step_from_question (s : GameState) (e : Event) (h : s.currentPhase = Phase.question) :
    ((stepE e s).endCount = s.endCount ∧ (stepE e s).currentPhase ≠ Phase.leaderboard) ∨
    ((stepE e s).endCount = s.endCount + 1 ∧
      (stepE e s).currentPhase = Phase.leaderboard ∧
      (stepE e s).questionTimer.refLive = false) := by
  have hne : s.currentPhase ≠ Phase.leaderboard := by
    rw [h]
    decide
  cases e with
  | joinWaiting tok nm sid =>
    left
    refine ⟨joinWaiting_endCount s tok nm sid, ?_⟩
    rw [show (stepE (Event.joinWaiting tok nm sid) s).currentPhase = s.currentPhase from
      joinWaiting_currentPhase s tok nm sid]
    exact hne
  | startGame tok em =>
    left
    simp only [stepE]
    unfold startGameHandler
    split
    · exact ⟨rfl, show Phase.photos ≠ Phase.leaderboard by decide⟩
    · exact ⟨rfl, hne⟩
  | photoTick now =>
    left
    simp only [stepE]
    unfold photoTickStep
    split
    · exact ⟨rfl, hne⟩
    · split
      · exact ⟨rfl, show Phase.question ≠ Phase.leaderboard by decide⟩
      · exact ⟨rfl, hne⟩
  | questionTick now =>
    simp only [stepE]
    unfold questionTickStep
    split
    · exact Or.inl ⟨rfl, hne⟩
    · split
      · right
        refine ⟨rfl, rfl, ?_⟩
        rw [endQuestion_questionTimer]
        exact clearIntervalRef_refLive _
      · exact Or.inl ⟨rfl, hne⟩
  | submitAnswer em ans now =>
    simp only [stepE]
    unfold submitAnswer
    rcases hfind : s.players.find? (fun p => decide (p.name = em)) with _ | p
    · simp only [hfind]
      exact Or.inl ⟨by trivial, hne⟩
    · simp only [hfind]
      split
      · split
        · right
          refine ⟨rfl, rfl, ?_⟩
          rw [endQuestion_questionTimer]
          exact clearIntervalRef_refLive _
        · exact Or.inl ⟨rfl, hne⟩
      · exact Or.inl ⟨rfl, hne⟩
  | resetGame =>
    exact Or.inl ⟨rfl, show Phase.waiting ≠ Phase.leaderboard by decide⟩
  | newGame tok em =>
    left
    simp only [stepE]
    unfold newGameHandler
    split
    · exact ⟨rfl, show Phase.waiting ≠ Phase.leaderboard by decide⟩
    · exact ⟨rfl, hne⟩
  | disconnect sid =>
    exact Or.inl ⟨rfl, hne⟩

/-- Trace form of the concurrency guard: along any run of event-loop
callbacks that stays in the question phase (every proper stage of the trace
still shows phase `question`), the question-end sequence never runs strictly
inside the run, and it runs exactly once — with the question-timer handle
left cleared — at the step that exits to the leaderboard phase.  Exits by
reset, new-game or start-game run no scoring. -/
theorem runTrace_question_endCount (tr : List Event) :
    ∀ s : GameState, s.currentPhase = Phase.question →
    (∀ n, n < tr.length → (runTrace (List.take n tr) s).currentPhase = Phase.question) →
    (((runTrace tr s).currentPhase = Phase.leaderboard →
       (runTrace tr s).endCount = s.endCount + 1 ∧
       (runTrace tr s).questionTimer.refLive = false) ∧
     ((runTrace tr s).currentPhase ≠ Phase.leaderboard →
       (runTrace tr s).endCount = s.endCount)) := by
  induction tr with
  | nil =>
    intro s h _
    refine ⟨fun hl => ?_, fun _ => rfl⟩
    rw [runTrace_nil] at hl
    rw [h] at hl
    cases hl
  | cons e rest ih =>
    intro s h hq
    rw [runTrace_cons]
    by_cases hr : rest = []
    · subst hr
      rw [runTrace_nil]
      rcases step_from_question s e h with ⟨h1, h2⟩ | ⟨h1, h2, h3⟩
      · exact ⟨fun hl => absurd hl h2, fun _ => h1⟩
      · exact ⟨fun _ => ⟨h1, h3⟩, fun hl => absurd h2 hl⟩
    · have hlen : 1 < (e :: rest).length := by
        have : 0 < rest.length := List.length_pos.2 hr
        simp only [List.length_cons]
        omega
      have h1 : (stepE e s).currentPhase = Phase.question := by
        have := hq 1 hlen
        simpa [runTrace_cons, runTrace_nil] using this
      have hstep : (stepE e s).endCount = s.endCount := by
        rcases step_from_question s e h with ⟨ha, _⟩ | ⟨_, hb, _⟩
        · exact ha
        · exact absurd hb (by rw [h1]; decide)
      have hq2 : ∀ n, n < rest.length →
          (runTrace (List.take n rest) (stepE e s)).currentPhase = Phase.question := by
        intro n hn
        have := hq (n + 1) (by simpa using Nat.succ_lt_succ hn)
        simpa [List.take_succ_cons, runTrace_cons] using this
      have hmain := ih (stepE e s) h1 hq2
      refine ⟨fun hl => ?_, fun hl => ?_⟩
      · have h2 := hmain.1 hl
        exact ⟨by rw [h2.1, hstep], h2.2⟩
      · rw [hmain.2 hl, hstep]

/-- C1: scoring runs exactly once per run of the question phase.
First conjunct: along any trace of event-loop callbacks whose proper stages
all remain in the question phase, `endQuestion` runs exactly once iff the
trace exits to the leaderboard phase (and then the question-timer handle is
left cleared), and never otherwise — so the automatic-timeout and
all-answered triggers cannot both fire in one run.  Second conjunct: a
submission that completes the roster (every entry then holds a non-null
answer) runs `endQuestion` exactly once, cancelling the referenced question
interval. Third conjunct: a question tick that expires the countdown runs
`endQuestion` exactly once, likewise cancelling the question interval. -/
theorem scoring_runs_once :
    (∀ (tr : List Event) (s : GameState), s.currentPhase = Phase.question →
      (∀ n, n < tr.length → (runTrace (List.take n tr) s).currentPhase = Phase.question) →
      (((runTrace tr s).currentPhase = Phase.leaderboard →
         (runTrace tr s).endCount = s.endCount + 1 ∧
         (runTrace tr s).questionTimer.refLive = false) ∧
       ((runTrace tr s).currentPhase ≠ Phase.leaderboard →
         (runTrace tr s).endCount = s.endCount))) ∧
    (∀ (s : GameState) (playerEmail answer : String) (now : ℤ) (p : Player),
      s.players.find? (fun q => decide (q.name = playerEmail)) = some p →
      answerFalsy p.currentAnswer = true →
      (updateFirst s.players playerEmail (fun q => { q with
          currentAnswer := some answer,
          answerTime := some (jsRound10 (now - s.questionStartTime.getD 0)) })).all
        (fun q => q.currentAnswer.isSome) = true →
      (submitAnswer s playerEmail answer now).endCount = s.endCount + 1 ∧
      (submitAnswer s playerEmail answer now).currentPhase = Phase.leaderboard ∧
      (submitAnswer s playerEmail answer now).questionTimer.refLive = false) ∧
    (∀ (s : GameState) (now : ℤ), s.questionTimer.live ≠ 0 → s.questionTimeLeft ≤ 1 →
      (questionTickStep s now).endCount = s.endCount + 1 ∧
      (questionTickStep s now).currentPhase = Phase.leaderboard ∧
      (questionTickStep s now).questionTimer.refLive = false) := by
  refine ⟨fun tr s h hq => runTrace_question_endCount tr s h hq, ?_, ?_⟩
  · intro s playerEmail answer now p hfind hfalsy hall
    unfold submitAnswer
    simp only [hfind]
    rw [if_pos hfalsy]
    rw [if_pos hall]
    refine ⟨rfl, rfl, ?_⟩
    rw [endQuestion_questionTimer]
    exact clearIntervalRef_refLive _
  · intro s now hlive htl
    have hc : s.questionTimeLeft - 1 ≤ 0 := by omega
    unfold questionTickStep
    rw [if_neg hlive]
    rw [if_pos hc]
    refine ⟨rfl, rfl, ?_⟩
    rw [endQuestion_questionTimer]
    exact clearIntervalRef_refLive _

/-- A concrete mid-question state: one connected player, question countdown
at its last second. -/
def c1state : GameState :=
  { state0 with
      isStarted := true,
      currentPhase := Phase.question,
      players := [⟨"gail", 0, none, none, true, 2⟩],
      questionStartTime := some 0,
      questionTimeLeft := 1,
      questionTimer := ⟨1, true⟩ }

/-- Witness for C1: the countdown-expiry trace and the all-answered
submission each run the question-end sequence exactly once on `c1state`. -/
theorem scoring_runs_once_witness :
    ((runTrace [Event.questionTick 10000] c1state).endCount = 1 ∧
     (runTrace [Event.questionTick 10000] c1state).questionTimer.refLive = false) ∧
    ((submitAnswer c1state "gail" "echantons" 2000).endCount = 1 ∧
     (submitAnswer c1state "gail" "echantons" 2000).currentPhase = Phase.leaderboard) := by
  constructor
  · have h := (scoring_runs_once.1 [Event.questionTick 10000] c1state rfl
      (by
        intro n hn
        have hn0 : n = 0 := by simpa using hn
        subst hn0
        rfl)).1 (by decide)
    exact ⟨h.1, h.2⟩
  · have h := scoring_runs_once.2.1 c1state "gail" "echantons" 2000
      ⟨"gail", 0, none, none, true, 2⟩ (by decide) rfl (by decide)
    exact ⟨h.1, h.2.1⟩

end Quiz
